import Mathlib

/-!
Shallow embedding, in Lean 4, of the logical core of the
`vibe-arbitrary-call` browser front-end (a TypeScript/React application):

* `src/utils/wallet.ts` — chain registry, wallet detection, connection,
  transaction submission, network switching, validation and chain-id
  normalization utilities;
* `src/utils/eip7702.ts` — deployed-code detection;
* `src/components/TransactionForm.tsx` — the value-conversion pipeline of the
  transaction form (the `parseEther`/`formatEther` pair of the `ethers` v6
  library it calls, and the payload construction of `handleSubmit`).

Asynchronous provider interaction is embedded by passing an explicit provider
response function and by returning, next to each operation's result, the
ordered list of JSON-RPC requests the operation issued.  JavaScript exceptions
are embedded with `Except`; JavaScript numbers reached through `parseInt` are
embedded as exact integers rounded to IEEE-754 double precision where the
source rounds.
-/

/-! ## Digit-string primitives

JavaScript renders numbers with `Number.prototype.toString(base)` and
`BigInt.prototype.toString()`, and reads digit strings through `parseInt` and
`BigInt`.  Both directions are embedded here over `List Char`.
-/

/-- The character JavaScript uses for digit value `d` (`0`–`9`, then `a`–`f`):
this is the digit alphabet of `Number.prototype.toString(16)` and of decimal
rendering. -/
def natDigitChar (d : Nat) : Char :=
  if d < 10 then Char.ofNat (48 + d) else Char.ofNat (87 + d)

/-- Numeric value of a digit character, as `parseInt` assigns it:
`'0'`–`'9'` map to 0–9, `'a'`–`'z'` to 10–35, `'A'`–`'Z'` to 10–35. -/
def digitVal (c : Char) : Nat :=
  if 97 ≤ c.toNat then c.toNat - 87
  else if 65 ≤ c.toNat then c.toNat - 55
  else c.toNat - 48

/-- Decimal digit predicate (`[0-9]`). -/
def isDecDigit (c : Char) : Bool :=
  48 ≤ c.toNat && c.toNat ≤ 57

/-- Hexadecimal digit predicate (`[0-9a-fA-F]`). -/
def isHexDigit (c : Char) : Bool :=
  (48 ≤ c.toNat && c.toNat ≤ 57) ||
  (97 ≤ c.toNat && c.toNat ≤ 102) ||
  (65 ≤ c.toNat && c.toNat ≤ 70)

/-- Fuel-driven digit emission, most significant digit first; mirrors the
structure of JavaScript's number printing (and of `Nat.toDigitsCore`), with
structural recursion on the fuel. -/
def toDigitsCoreB (b : Nat) : Nat → Nat → List Char → List Char
  | 0, _, ds => ds
  | fuel + 1, n, ds =>
    let d := natDigitChar (n % b)
    let n2 := n / b
    if n2 = 0 then d :: ds else toDigitsCoreB b fuel n2 (d :: ds)

/-- Canonical base-`b` rendering of `n` (no leading zeros; `0` renders as
`"0"`), the embedding of `toString(b)` on non-negative integers. -/
def natToBase (b n : Nat) : List Char :=
  toDigitsCoreB b (n + 1) n []

/-- Value of a digit string read in base `b`, most significant digit first. -/
def digitsVal (b : Nat) (l : List Char) : Nat :=
  l.foldl (fun a c => a * b + digitVal c) 0

/-! ### Digit-string lemmas -/

theorem toDigitsCoreB_acc (b : Nat) (fuel : Nat) :
    ∀ (n : Nat) (ds : List Char),
      toDigitsCoreB b fuel n ds = toDigitsCoreB b fuel n [] ++ ds := by
  induction fuel with
  | zero => intro n ds; simp [toDigitsCoreB]
  | succ fuel ih =>
    intro n ds
    simp only [toDigitsCoreB]
    split
    · simp
    · rw [ih, ih (n / b) [natDigitChar (n % b)]]
      simp

theorem toDigitsCoreB_fuel (b : Nat) (hb : 2 ≤ b) :
    ∀ (n fuel₁ fuel₂ : Nat) (ds : List Char), n < fuel₁ → n < fuel₂ →
      toDigitsCoreB b fuel₁ n ds = toDigitsCoreB b fuel₂ n ds := by
  intro n
  induction n using Nat.strong_induction_on with
  | _ n ih =>
    intro fuel₁ fuel₂ ds h₁ h₂
    match fuel₁, fuel₂ with
    | f₁ + 1, f₂ + 1 =>
      simp only [toDigitsCoreB]
      split
      · rfl
      · rename_i hne
        have hdiv : n / b < n := Nat.div_lt_self (by
          rcases Nat.eq_zero_or_pos n with h | h
          · exact absurd (by simp [h]) hne
          · exact h) (by omega)
        exact ih (n / b) hdiv f₁ f₂ _ (by omega) (by omega)

theorem natToBase_lt (b n : Nat) (_hb : 0 < b) (h : n < b) :
    natToBase b n = [natDigitChar n] := by
  simp [natToBase, toDigitsCoreB, Nat.mod_eq_of_lt h, Nat.div_eq_of_lt h]

theorem natToBase_ge (b n : Nat) (hb : 2 ≤ b) (h : b ≤ n) :
    natToBase b n = natToBase b (n / b) ++ [natDigitChar (n % b)] := by
  have hne : n / b ≠ 0 := by
    have := Nat.one_le_div_iff (by omega : 0 < b) |>.mpr h
    omega
  show toDigitsCoreB b (n + 1) n [] = _
  simp only [toDigitsCoreB]
  rw [if_neg hne]
  rw [toDigitsCoreB_acc]
  congr 1
  exact toDigitsCoreB_fuel b hb (n / b) n (n / b + 1) []
    (by
      have := Nat.div_lt_self (by omega : 0 < n) (by omega : 1 < b)
      omega)
    (Nat.lt_succ_self _)

theorem digitsVal_shift (b : Nat) (l : List Char) :
    ∀ a : Nat, l.foldl (fun a c => a * b + digitVal c) a
      = a * b ^ l.length + digitsVal b l := by
  induction l with
  | nil => intro a; simp [digitsVal]
  | cons c cs ih =>
    intro a
    simp only [List.foldl_cons, digitsVal, List.length_cons]
    rw [ih (a * b + digitVal c), ih (0 * b + digitVal c)]
    ring

theorem digitsVal_append (b : Nat) (l₁ l₂ : List Char) :
    digitsVal b (l₁ ++ l₂) = digitsVal b l₁ * b ^ l₂.length + digitsVal b l₂ := by
  simp only [digitsVal, List.foldl_append]
  exact digitsVal_shift b l₂ _

theorem digitsVal_snoc (b : Nat) (l : List Char) (c : Char) :
    digitsVal b (l ++ [c]) = digitsVal b l * b + digitVal c := by
  rw [digitsVal_append]
  simp [digitsVal]

theorem digitsVal_cons (b : Nat) (c : Char) (cs : List Char) :
    digitsVal b (c :: cs) = digitVal c * b ^ cs.length + digitsVal b cs := by
  have := digitsVal_append b [c] cs
  simpa [digitsVal] using this

theorem digitVal_natDigitChar {d : Nat} (h : d < 16) :
    digitVal (natDigitChar d) = d := by
  interval_cases d <;> decide

theorem digitsVal_natToBase (b : Nat) (hb : 2 ≤ b) (hb16 : b ≤ 16) (n : Nat) :
    digitsVal b (natToBase b n) = n := by
  induction n using Nat.strong_induction_on with
  | _ n ih =>
    by_cases h : n < b
    · rw [natToBase_lt b n (by omega) h]
      simp [digitsVal, digitVal_natDigitChar (by omega : n < 16)]
    · rw [natToBase_ge b n hb (by omega)]
      rw [digitsVal_snoc]
      have hdiv : n / b < n := Nat.div_lt_self (by omega) (by omega)
      rw [ih (n / b) hdiv, digitVal_natDigitChar (by
        have := Nat.mod_lt n (by omega : 0 < b); omega)]
      rw [Nat.mul_comm]
      exact Nat.div_add_mod n b

/-- A nonempty digit string is free of leading zeros: either it is the single
digit `"0"`, or its first character is not `'0'`. -/
def noLeadingZero (l : List Char) : Bool :=
  match l with
  | [] => false
  | c :: cs => c ≠ '0' || cs.isEmpty

theorem natDigitChar_decDigit {c : Char} (h : isDecDigit c = true) :
    natDigitChar (digitVal c) = c := by
  have h' : 48 ≤ c.toNat ∧ c.toNat ≤ 57 := by
    simpa [isDecDigit] using h
  have hval : digitVal c = c.toNat - 48 := by
    unfold digitVal
    rw [if_neg (by omega), if_neg (by omega)]
  have hlt : digitVal c < 10 := by omega
  unfold natDigitChar
  rw [if_pos hlt, hval]
  have : 48 + (c.toNat - 48) = c.toNat := by omega
  rw [this, Char.ofNat_toNat]

theorem digitVal_le_of_decDigit {c : Char} (h : isDecDigit c = true) :
    digitVal c ≤ 9 := by
  have h' : 48 ≤ c.toNat ∧ c.toNat ≤ 57 := by
    simpa [isDecDigit] using h
  unfold digitVal
  rw [if_neg (by omega), if_neg (by omega)]
  omega

theorem eq_of_toNat_eq {c : Char} {n : Nat} (h : c.toNat = n) :
    c = Char.ofNat n := by
  rw [← h, Char.ofNat_toNat]

theorem digitVal_pos_of_ne_zero {c : Char} (hd : isDecDigit c = true)
    (hne : c ≠ '0') : 1 ≤ digitVal c := by
  have h' : 48 ≤ c.toNat ∧ c.toNat ≤ 57 := by
    simpa [isDecDigit] using hd
  have h48 : c.toNat ≠ 48 := by
    intro h
    exact hne (by simpa using eq_of_toNat_eq h)
  unfold digitVal
  rw [if_neg (by omega), if_neg (by omega)]
  omega

theorem digitsVal_lt (l : List Char) (h : ∀ c ∈ l, isDecDigit c = true) :
    digitsVal 10 l < 10 ^ l.length := by
  induction l with
  | nil => simp [digitsVal]
  | cons c cs ih =>
    rw [digitsVal_cons]
    have h1 : digitVal c ≤ 9 := digitVal_le_of_decDigit (h c (by simp))
    have h2 : digitsVal 10 cs < 10 ^ cs.length := ih fun x hx => h x (by simp [hx])
    have : (10 : Nat) ^ (c :: cs).length = 10 ^ cs.length * 10 := by
      simp [List.length_cons, Nat.pow_succ]
    rw [this]
    nlinarith

theorem digitsVal_pos (c : Char) (cs : List Char)
    (hd : isDecDigit c = true) (hne : c ≠ '0') :
    1 ≤ digitsVal 10 (c :: cs) := by
  rw [digitsVal_cons]
  have h1 : 1 ≤ digitVal c := digitVal_pos_of_ne_zero hd hne
  have h2 : 0 < (10:Nat) ^ cs.length := pow_pos (by omega) _
  nlinarith

/-- Parsing a canonical decimal digit string and printing the value back
reproduces the string. -/
theorem natToBase_digitsVal (l : List Char)
    (hd : ∀ c ∈ l, isDecDigit c = true) (hc : noLeadingZero l = true) :
    natToBase 10 (digitsVal 10 l) = l := by
  induction l using List.reverseRecOn with
  | nil => simp [noLeadingZero] at hc
  | append_singleton l' c ih =>
    match l' with
    | [] =>
      have hcd : isDecDigit c = true := hd c (by simp)
      have : digitsVal 10 ([] ++ [c]) = digitVal c := by
        simp [digitsVal]
      rw [this, natToBase_lt 10 _ (by omega)
        (by have := digitVal_le_of_decDigit hcd; omega)]
      simp [natDigitChar_decDigit hcd]
    | c0 :: cs =>
      have hc0 : c0 ≠ '0' := by
        simp only [noLeadingZero, List.cons_append] at hc
        rcases Bool.or_eq_true_iff.mp hc with h | h
        · simpa using h
        · simp at h
      have hd' : ∀ x ∈ c0 :: cs, isDecDigit x = true :=
        fun x hx => hd x (List.mem_append_left [c] hx)
      have hcd : isDecDigit c = true := hd c (by simp)
      have hy : 1 ≤ digitsVal 10 (c0 :: cs) :=
        digitsVal_pos c0 cs (hd' c0 (by simp)) hc0
      rw [digitsVal_snoc]
      have h10 : 10 ≤ digitsVal 10 (c0 :: cs) * 10 + digitVal c := by nlinarith
      rw [natToBase_ge 10 _ (by omega) h10]
      have hdvc : digitVal c ≤ 9 := digitVal_le_of_decDigit hcd
      have hdiv : (digitsVal 10 (c0 :: cs) * 10 + digitVal c) / 10
          = digitsVal 10 (c0 :: cs) := by omega
      have hmod : (digitsVal 10 (c0 :: cs) * 10 + digitVal c) % 10
          = digitVal c := by omega
      rw [hdiv, hmod, natDigitChar_decDigit hcd]
      rw [ih hd' (by
        simp only [noLeadingZero]
        simp [hc0])]

/-- Left-pad a digit string with `'0'` to width `n`. -/
def leftPad (n : Nat) (l : List Char) : List Char :=
  List.replicate (n - l.length) '0' ++ l

/-- Drop all trailing `'0'` characters. -/
def trimTrailZeros (l : List Char) : List Char :=
  (l.reverse.dropWhile (fun c => c = '0')).reverse

/-- Drop a single trailing `'.'`, if present. -/
def dropTrailDot (l : List Char) : List Char :=
  match l.reverse with
  | '.' :: r => r.reverse
  | _ => l

theorem digitsVal_zero_all_zeros (l : List Char)
    (hd : ∀ c ∈ l, isDecDigit c = true) (h : digitsVal 10 l = 0) :
    l = List.replicate l.length '0' := by
  induction l with
  | nil => simp
  | cons c cs ih =>
    rw [digitsVal_cons] at h
    have hpow : 0 < (10:Nat) ^ cs.length := pow_pos (by omega) _
    have hA : digitVal c * 10 ^ cs.length = 0 ∧ digitsVal 10 cs = 0 := by
      constructor <;> omega
    have h1 : digitVal c = 0 := by
      rcases Nat.mul_eq_zero.mp hA.1 with h' | h'
      · exact h'
      · omega
    have h2 : digitsVal 10 cs = 0 := hA.2
    have hcd : isDecDigit c = true := hd c (by simp)
    have h48 : 48 ≤ c.toNat ∧ c.toNat ≤ 57 := by
      simpa [isDecDigit] using hcd
    have hc0 : c = '0' := by
      have : c.toNat = 48 := by
        unfold digitVal at h1
        rw [if_neg (by omega), if_neg (by omega)] at h1
        omega
      simpa using eq_of_toNat_eq this
    rw [List.length_cons, List.replicate_succ, hc0,
      ← ih (fun x hx => hd x (by simp [hx])) h2]

/-- Parsing any nonempty decimal digit string and printing the value back at
the same width reproduces the string. -/
theorem leftPad_natToBase_digitsVal (l : List Char)
    (hd : ∀ c ∈ l, isDecDigit c = true) (hne : l ≠ []) :
    leftPad l.length (natToBase 10 (digitsVal 10 l)) = l := by
  induction l using List.reverseRecOn with
  | nil => exact absurd rfl hne
  | append_singleton l' c ih =>
    have hcd : isDecDigit c = true := hd c (by simp)
    have hdvc : digitVal c ≤ 9 := digitVal_le_of_decDigit hcd
    match l' with
    | [] =>
      have : digitsVal 10 ([] ++ [c]) = digitVal c := by simp [digitsVal]
      rw [this, natToBase_lt 10 _ (by omega) (by omega)]
      simp [leftPad, natDigitChar_decDigit hcd]
    | c0 :: cs =>
      have hd' : ∀ x ∈ c0 :: cs, isDecDigit x = true :=
        fun x hx => hd x (List.mem_append_left [c] hx)
      rw [digitsVal_snoc]
      by_cases hz : digitsVal 10 (c0 :: cs) = 0
      · rw [hz]
        have h0 : (0 : Nat) * 10 + digitVal c = digitVal c := by omega
        rw [h0, natToBase_lt 10 _ (by omega) (by omega)]
        have hzeros := digitsVal_zero_all_zeros (c0 :: cs) hd' hz
        unfold leftPad
        have hlen : ((c0 :: cs) ++ [c]).length
            - ([natDigitChar (digitVal c)]).length = (c0 :: cs).length := by
          simp
        rw [hlen, natDigitChar_decDigit hcd, ← hzeros]
      · have h10 : 10 ≤ digitsVal 10 (c0 :: cs) * 10 + digitVal c := by omega
        rw [natToBase_ge 10 _ (by omega) h10]
        have hdiv : (digitsVal 10 (c0 :: cs) * 10 + digitVal c) / 10
            = digitsVal 10 (c0 :: cs) := by omega
        have hmod : (digitsVal 10 (c0 :: cs) * 10 + digitVal c) % 10
            = digitVal c := by omega
        rw [hdiv, hmod, natDigitChar_decDigit hcd]
        have ih' := ih hd' (by simp)
        have hlen : (natToBase 10 (digitsVal 10 (c0 :: cs))).length
            ≤ (c0 :: cs).length := by
          by_contra hgt
          have hz2 : (c0 :: cs).length
              - (natToBase 10 (digitsVal 10 (c0 :: cs))).length = 0 := by omega
          have heq : leftPad (c0 :: cs).length
              (natToBase 10 (digitsVal 10 (c0 :: cs)))
              = natToBase 10 (digitsVal 10 (c0 :: cs)) := by
            unfold leftPad
            rw [hz2]
            simp
          rw [heq] at ih'
          have := congrArg List.length ih'
          omega
        unfold leftPad
        have harith : ((c0 :: cs) ++ [c]).length
            - (natToBase 10 (digitsVal 10 (c0 :: cs)) ++ [c]).length
            = (c0 :: cs).length
              - (natToBase 10 (digitsVal 10 (c0 :: cs))).length := by
          simp
        rw [harith, ← List.append_assoc]
        exact congrArg (· ++ [c]) ih'

/-! ### Trailing-zero trimming lemmas -/

theorem dropWhile_append (p : Char → Bool) (xs ys : List Char) :
    (xs ++ ys).dropWhile p =
      if (xs.dropWhile p).isEmpty then ys.dropWhile p
      else xs.dropWhile p ++ ys := by
  induction xs with
  | nil => simp
  | cons x xs ih =>
    by_cases hx : p x
    · simp [List.dropWhile_cons, hx, ih]
    · simp [List.dropWhile_cons, hx]

theorem dropWhile_idem (p : Char → Bool) (xs : List Char) :
    (xs.dropWhile p).dropWhile p = xs.dropWhile p := by
  induction xs with
  | nil => simp
  | cons x xs ih =>
    by_cases hx : p x
    · simp [List.dropWhile_cons, hx, ih]
    · simp [List.dropWhile_cons, hx]

theorem trimTrailZeros_split (w f : List Char) :
    trimTrailZeros (w ++ '.' :: f) = w ++ '.' :: trimTrailZeros f := by
  unfold trimTrailZeros
  rw [List.reverse_append]
  have h1 : ('.' :: f).reverse = f.reverse ++ ['.'] := by simp
  rw [h1, List.append_assoc,
    dropWhile_append (fun c => c = '0') f.reverse (['.'] ++ w.reverse)]
  by_cases h : (f.reverse.dropWhile (fun c => c = '0')).isEmpty
  · rw [if_pos h]
    have h2 : f.reverse.dropWhile (fun c => c = '0') = [] := by
      simpa [List.isEmpty_iff] using h
    have h3 : (['.'] ++ w.reverse).dropWhile (fun c => c = '0')
        = '.' :: w.reverse := by
      simp [List.dropWhile_cons]
    rw [h3, h2]
    simp
  · rw [if_neg h]
    simp [List.reverse_append]

theorem trimTrailZeros_idem (l : List Char) :
    trimTrailZeros (trimTrailZeros l) = trimTrailZeros l := by
  unfold trimTrailZeros
  rw [List.reverse_reverse, dropWhile_idem]

theorem dropWhile_replicate_zero (k : Nat) :
    (List.replicate k '0').dropWhile (fun c => c = '0') = [] := by
  induction k with
  | zero => simp
  | succ k ih => simp [List.replicate_succ, List.dropWhile_cons, ih]

theorem trimTrailZeros_append_zeros (a : List Char) (k : Nat) :
    trimTrailZeros (a ++ List.replicate k '0') = trimTrailZeros a := by
  unfold trimTrailZeros
  rw [List.reverse_append, List.reverse_replicate,
    dropWhile_append (fun c => c = '0') (List.replicate k '0') a.reverse,
    dropWhile_replicate_zero]
  simp

theorem trimTrailZeros_replicate (k : Nat) :
    trimTrailZeros (List.replicate k '0') = [] := by
  have h := trimTrailZeros_append_zeros [] k
  simp only [List.nil_append] at h
  rw [h]
  rfl

theorem dropTrailDot_concat (w : List Char) :
    dropTrailDot (w ++ ['.']) = w := by
  unfold dropTrailDot
  rw [List.reverse_append]
  simp

theorem digitsVal_replicate_zero (b : Nat) (k : Nat) :
    digitsVal b (List.replicate k '0') = 0 := by
  induction k with
  | zero => simp [digitsVal]
  | succ k ih =>
    rw [List.replicate_succ, digitsVal_cons, ih]
    have : digitVal '0' = 0 := by decide
    simp [this]

/-! ## JavaScript number primitives -/

/-- Binary length of `n`, by bounded search; correct for every `n < 2 ^ 1100`,
which covers the entire finite range of IEEE-754 doubles. -/
def bitLength (n : Nat) : Nat :=
  ((List.range 1100).filter (fun k => 2 ^ k ≤ n)).length

/-- Round-to-nearest, ties-to-even conversion of a non-negative integer to the
value of the nearest IEEE-754 double (the `ℝ → Number` conversion the ECMA-262
specification applies to the exact integer `parseInt` reads).  Exact for all
`n ≤ 2 ^ 53`; overflow to infinity is not modelled, every value this
development evaluates lies far below the double overflow threshold. -/
def roundToDouble (n : Nat) : Nat :=
  if n ≤ 2 ^ 53 then n
  else
    let ulp := 2 ^ (bitLength n - 53)
    let q := n / ulp
    let r := n % ulp
    if 2 * r < ulp then q * ulp
    else if ulp < 2 * r then (q + 1) * ulp
    else if q % 2 = 0 then q * ulp else (q + 1) * ulp

theorem roundToDouble_small {n : Nat} (h : n ≤ 2 ^ 53) : roundToDouble n = n := by
  unfold roundToDouble
  rw [if_pos h]

/-- Maximal hexadecimal digit prefix read as a number, `none` for NaN; the
core digit loop shared by the `parseInt` embeddings below. -/
def hexPrefixVal (l : List Char) : Option Nat :=
  let ds := l.takeWhile isHexDigit
  if ds.isEmpty then none else some (roundToDouble (digitsVal 16 ds))

/-- Maximal decimal digit prefix read as a number, `none` for NaN. -/
def decPrefixVal (l : List Char) : Option Nat :=
  let ds := l.takeWhile isDecDigit
  if ds.isEmpty then none else some (roundToDouble (digitsVal 10 ds))

/-- Embeds `parseInt(s, 16)`: an optional `0x`/`0X` prefix is stripped, the
maximal hexadecimal digit prefix is read, and the exact integer is converted
to a double.  NaN is `none`.  ECMA-262's leading-whitespace and sign handling
is elided: every call site in this codebase guards or produces strings without
either. -/
def jsParseIntBase16 (l : List Char) : Option Nat :=
  match l with
  | c0 :: c1 :: rest =>
    if c0 = '0' ∧ (c1 = 'x' ∨ c1 = 'X') then hexPrefixVal rest
    else hexPrefixVal l
  | _ => hexPrefixVal l

/-- Embeds `parseInt(s)` with no radix argument: radix 16 after a `0x`/`0X`
prefix, radix 10 otherwise, maximal digit prefix, exact integer converted to a
double.  NaN is `none`; whitespace and sign handling elided as above. -/
def jsParseIntAuto (l : List Char) : Option Nat :=
  match l with
  | c0 :: c1 :: rest =>
    if c0 = '0' ∧ (c1 = 'x' ∨ c1 = 'X') then hexPrefixVal rest
    else decPrefixVal l
  | _ => decPrefixVal l

/-- Embeds `Number.prototype.toString(base)` applied to a `parseInt` result:
canonical base-`base` digits, or the three characters `NaN`. -/
def numToStringBase (b : Nat) : Option Nat → List Char
  | some n => natToBase b n
  | none => ['N', 'a', 'N']

/-! ## The ethers v6 value-conversion pair

`TransactionForm.tsx` converts between the display amount and its 18-decimal
base-unit (wei) integer with `parseEther` and `formatEther` from the `ethers`
v6 library.  Both are embedded here with their exact BigInt semantics on
non-negative values; the sign handling of the library is elided, the form's
amounts are non-negative.
-/

/-- Character test `c ≠ '.'`, the splitter predicate of the decimal parse. -/
def notDot (c : Char) : Bool := c ≠ '.'

/-- Embeds `parseEther` of ethers v6 (`parseUnits` with 18 decimals) on
non-negative inputs: the value must match `([0-9]*)\.?([0-9]*)` with at least
one digit and at most 18 fractional digits; the fraction is right-padded to 18
digits and the whole digit string is read as an exact integer. Invalid input
(`none`) embeds the library throw. -/
def parseEtherL (l : List Char) : Option Nat :=
  let whole := l.takeWhile notDot
  let rest := l.dropWhile notDot
  let frac := match rest with
    | [] => ([] : List Char)
    | _ :: r => r
  if whole.all isDecDigit = true ∧ frac.all isDecDigit = true
      ∧ 0 < whole.length + frac.length ∧ frac.length ≤ 18 then
    some (digitsVal 10 (whole ++ frac ++ List.replicate (18 - frac.length) '0'))
  else none

/-- `parseEther` on a `String`. -/
def parseEther (s : String) : Option Nat := parseEtherL s.data

/-- Embeds `formatEther` of ethers v6 (`formatUnits` with 18 decimals) on
non-negative values: the whole part in canonical decimal, then `'.'`, then the
18-digit fraction with trailing zeros trimmed but at least one digit kept. -/
def formatEtherL (v : Nat) : List Char :=
  let whole := natToBase 10 (v / 10 ^ 18)
  let fracDigits := leftPad 18 (natToBase 10 (v % 10 ^ 18))
  let frac := if trimTrailZeros fracDigits = [] then ['0']
    else trimTrailZeros fracDigits
  whole ++ '.' :: frac

/-- `formatEther` producing a `String`. -/
def formatEther (v : Nat) : String := ⟨formatEtherL v⟩

/-- Canonical trailing-zero trimming of a decimal numeral: in the presence of
a decimal point, trailing zeros (and a then-dangling point) are removed;
numerals without a point are left unchanged.  This is the comparison the
round-trip contract is stated up to. -/
def normalizeDec (l : List Char) : List Char :=
  if '.' ∈ l then dropTrailDot (trimTrailZeros l) else l

/-- The domain of the round-trip contract: non-negative decimal amount strings
with at most 18 fractional digits, i.e. exactly the inputs `parseEther`
accepts. -/
def validEthAmount (l : List Char) : Bool := (parseEtherL l).isSome

/-- The integer part (everything before a `'.'`) is nonempty and free of
leading zeros. -/
def canonicalIntPart (l : List Char) : Bool := noLeadingZero (l.takeWhile notDot)

theorem splitDot_spec (l : List Char) :
    l = l.takeWhile notDot ++ l.dropWhile notDot ∧
    (∀ c ∈ l.takeWhile notDot, c ≠ '.') ∧
    (l.dropWhile notDot = [] ∨ ∃ r, l.dropWhile notDot = '.' :: r) := by
  refine ⟨(List.takeWhile_append_dropWhile notDot l).symm, ?_, ?_⟩
  · intro c hc
    have h := List.mem_takeWhile_imp hc
    simpa [notDot] using h
  · induction l with
    | nil => left; rfl
    | cons x xs ih =>
      by_cases hx : notDot x = true
      · rw [List.dropWhile_cons, if_pos hx]
        exact ih
      · right
        have hx' : x = '.' := by
          by_contra h
          exact hx (by simp [notDot, h])
        refine ⟨xs, ?_⟩
        rw [List.dropWhile_cons, if_neg hx, hx']

theorem decDigit_zero : isDecDigit '0' = true := by decide

theorem trimTrailZeros_single_zero : trimTrailZeros ['0'] = [] := by decide

theorem parseEtherL_eq_noDot (l : List Char) (h : l.dropWhile notDot = []) :
    parseEtherL l =
      if (l.takeWhile notDot).all isDecDigit = true
          ∧ 0 < (l.takeWhile notDot).length
      then some (digitsVal 10 (l.takeWhile notDot ++ List.replicate 18 '0'))
      else none := by
  unfold parseEtherL
  rw [h]
  simp

theorem parseEtherL_eq_dot (l : List Char) (r : List Char)
    (h : l.dropWhile notDot = '.' :: r) :
    parseEtherL l =
      if (l.takeWhile notDot).all isDecDigit = true ∧ r.all isDecDigit = true
          ∧ 0 < (l.takeWhile notDot).length + r.length ∧ r.length ≤ 18
      then some (digitsVal 10
        (l.takeWhile notDot ++ r ++ List.replicate (18 - r.length) '0'))
      else none := by
  unfold parseEtherL
  rw [h]

theorem roundTrip_noDot (whole : List Char)
    (hdig : ∀ c ∈ whole, isDecDigit c = true)
    (hcanon : noLeadingZero whole = true)
    (hnodot : ∀ c ∈ whole, c ≠ '.') :
    normalizeDec (formatEtherL (digitsVal 10 (whole ++ List.replicate 18 '0')))
      = normalizeDec whole := by
  have hv : digitsVal 10 (whole ++ List.replicate 18 '0')
      = digitsVal 10 whole * 10 ^ 18 := by
    rw [digitsVal_append, digitsVal_replicate_zero, List.length_replicate,
      Nat.add_zero]
  have hdiv : digitsVal 10 whole * 10 ^ 18 / 10 ^ 18 = digitsVal 10 whole :=
    Nat.mul_div_cancel _ (by positivity)
  have hmod : digitsVal 10 whole * 10 ^ 18 % 10 ^ 18 = 0 :=
    Nat.mul_mod_left _ _
  rw [hv]
  simp only [formatEtherL]
  rw [hdiv, hmod]
  rw [natToBase_digitsVal whole hdig hcanon]
  rw [natToBase_lt 10 0 (by omega) (by omega)]
  have h0 : natDigitChar 0 = '0' := by decide
  rw [h0]
  have hpad : leftPad 18 ['0'] = List.replicate 18 '0' := by decide
  rw [hpad, trimTrailZeros_replicate, if_pos rfl]
  unfold normalizeDec
  rw [if_pos (by simp)]
  rw [if_neg (fun hmem => hnodot '.' hmem rfl)]
  rw [trimTrailZeros_split, trimTrailZeros_single_zero]
  exact dropTrailDot_concat whole

theorem roundTrip_dot (whole r : List Char)
    (hdig : ∀ c ∈ whole, isDecDigit c = true)
    (hrdig : ∀ c ∈ r, isDecDigit c = true)
    (hcanon : noLeadingZero whole = true)
    (hrlen : r.length ≤ 18) :
    normalizeDec (formatEtherL
        (digitsVal 10 (whole ++ r ++ List.replicate (18 - r.length) '0')))
      = normalizeDec (whole ++ '.' :: r) := by
  have hassoc : whole ++ r ++ List.replicate (18 - r.length) '0'
      = whole ++ (r ++ List.replicate (18 - r.length) '0') :=
    List.append_assoc _ _ _
  rw [hassoc]
  have hFlen : (r ++ List.replicate (18 - r.length) '0').length = 18 := by
    simp
    omega
  have hFdig : ∀ c ∈ r ++ List.replicate (18 - r.length) '0',
      isDecDigit c = true := by
    intro c hcF
    rcases List.mem_append.mp hcF with h | h
    · exact hrdig c h
    · rw [List.eq_of_mem_replicate h]
      exact decDigit_zero
  have hv : digitsVal 10 (whole ++ (r ++ List.replicate (18 - r.length) '0'))
      = digitsVal 10 whole * 10 ^ 18
        + digitsVal 10 (r ++ List.replicate (18 - r.length) '0') := by
    rw [digitsVal_append, hFlen]
  have hFlt : digitsVal 10 (r ++ List.replicate (18 - r.length) '0')
      < 10 ^ 18 := by
    have := digitsVal_lt _ hFdig
    rwa [hFlen] at this
  have hK : (0:Nat) < 10 ^ 18 := by positivity
  have hdiv : (digitsVal 10 whole * 10 ^ 18
        + digitsVal 10 (r ++ List.replicate (18 - r.length) '0')) / 10 ^ 18
      = digitsVal 10 whole := by
    rw [Nat.mul_comm, Nat.mul_add_div hK, Nat.div_eq_of_lt hFlt]
    omega
  have hmod : (digitsVal 10 whole * 10 ^ 18
        + digitsVal 10 (r ++ List.replicate (18 - r.length) '0')) % 10 ^ 18
      = digitsVal 10 (r ++ List.replicate (18 - r.length) '0') := by
    rw [Nat.mul_comm, Nat.mul_add_mod, Nat.mod_eq_of_lt hFlt]
  rw [hv]
  simp only [formatEtherL]
  rw [hdiv, hmod]
  rw [natToBase_digitsVal whole hdig hcanon]
  have hL2 := leftPad_natToBase_digitsVal
    (r ++ List.replicate (18 - r.length) '0') hFdig
    (by
      intro hFnil
      rw [hFnil] at hFlen
      simp at hFlen)
  rw [hFlen] at hL2
  rw [hL2, trimTrailZeros_append_zeros]
  by_cases hz : trimTrailZeros r = []
  · rw [hz, if_pos rfl]
    unfold normalizeDec
    rw [if_pos (by simp), if_pos (by simp)]
    rw [trimTrailZeros_split, trimTrailZeros_split,
      trimTrailZeros_single_zero, hz]
  · rw [if_neg hz]
    unfold normalizeDec
    rw [if_pos (by simp), if_pos (by simp)]
    rw [trimTrailZeros_split, trimTrailZeros_split, trimTrailZeros_idem]

theorem parseEtherL_roundTrip (l : List Char)
    (hv : validEthAmount l = true) (hc : canonicalIntPart l = true) :
    ∃ v, parseEtherL l = some v
      ∧ normalizeDec (formatEtherL v) = normalizeDec l := by
  obtain ⟨hsplit, htake, hdrop⟩ := splitDot_spec l
  unfold validEthAmount at hv
  unfold canonicalIntPart at hc
  rcases hdrop with hnil | ⟨r, hcons⟩
  · rw [parseEtherL_eq_noDot l hnil] at hv ⊢
    by_cases hcond : (l.takeWhile notDot).all isDecDigit = true
        ∧ 0 < (l.takeWhile notDot).length
    · rw [if_pos hcond]
      refine ⟨_, rfl, ?_⟩
      have hleq : l = l.takeWhile notDot := by
        conv_lhs => rw [hsplit]
        rw [hnil, List.append_nil]
      conv_rhs => rw [hleq]
      exact roundTrip_noDot (l.takeWhile notDot)
        (fun c hcm => List.all_eq_true.mp hcond.1 c hcm) hc htake
    · rw [if_neg hcond] at hv
      simp at hv
  · rw [parseEtherL_eq_dot l r hcons] at hv ⊢
    by_cases hcond : (l.takeWhile notDot).all isDecDigit = true
        ∧ r.all isDecDigit = true
        ∧ 0 < (l.takeWhile notDot).length + r.length ∧ r.length ≤ 18
    · rw [if_pos hcond]
      refine ⟨_, rfl, ?_⟩
      have hleq : l = l.takeWhile notDot ++ '.' :: r := by
        conv_lhs => rw [hsplit]
        rw [hcons]
      conv_rhs => rw [hleq]
      exact roundTrip_dot (l.takeWhile notDot) r
        (fun c hcm => List.all_eq_true.mp hcond.1 c hcm)
        (fun c hcm => List.all_eq_true.mp hcond.2.1 c hcm)
        hc hcond.2.2.2
    · rw [if_neg hcond] at hv
      simp at hv

/-! ## Data model

The provider and the values that cross the JSON-RPC boundary, from
`src/types/wallet.ts` and the call sites in `src/utils/wallet.ts`.
-/

/-- A JavaScript exception value as this codebase observes it: an optional
numeric `code` (EIP-1193 provider rejections carry one), a `message`, and
whether the value is an `Error` instance (`instanceof Error`).  Every error
this code throws or inspects carries a `message` property. -/
structure JsError where
  code : Option Int
  message : String
  isErrorInstance : Bool
deriving DecidableEq

/-- A JSON-RPC result value as this codebase consumes it: a string (hashes,
chain ids, code blobs), a string array (account lists), or null. -/
inductive RpcValue where
  | str : String → RpcValue
  | list : List String → RpcValue
  | nullv : RpcValue
deriving DecidableEq

/-- The JSON-RPC requests the embedded operations issue, with the parameters
the source passes. -/
inductive Req where
  | ethAccounts
  | ethRequestAccounts
  | ethChainId
  | ethSendTransaction (sender toAddr callData : String) (txValue : Option String)
  | walletSwitchChain (chainIdHex : String)
  | walletAddChain (chainIdHex chainName currencyName currencySymbol : String)
      (decimals : Nat) (rpcUrls : List (Option String))
      (blockExplorerUrls : List String)
  | ethGetCode (address tag : String)
deriving DecidableEq

/-- A provider: responds to each request, possibly depending on the requests
already made (the history), with a value or a rejection.  This is the
`request` method of the injected wallet's EIP-1193 interface. -/
def Provider := List Req → Req → Except JsError RpcValue

/-- `TransactionRequest` of `src/types/wallet.ts`; the source fields `to` and
`data` are named `toAddr` and `callData` here. -/
structure TransactionRequest where
  toAddr : String
  callData : String
  value : Option String
deriving DecidableEq

/-- `TransactionResult` of `src/types/wallet.ts`; the `hash` holds whatever
value the provider returned (a string on every conforming provider). -/
structure TransactionResult where
  hash : RpcValue
  success : Bool
  error : Option String
deriving DecidableEq

/-- `NetworkInfo` of `src/types/wallet.ts`. -/
structure NetworkInfo where
  chainId : String
  name : String
  rpcUrl : Option String
  blockExplorer : Option String
  currencySymbol : String
deriving DecidableEq

/-- The `NETWORKS` registry of `src/utils/wallet.ts` (lines 7–26), keyed by
decimal chain-id string.  No entry carries an `rpcUrl`. -/
def NETWORKS : List (String × NetworkInfo) := [
  ("1", { chainId := "1", name := "Ethereum Mainnet", rpcUrl := none,
          blockExplorer := some "https://etherscan.io",
          currencySymbol := "ETH" }),
  ("56", { chainId := "56", name := "BNB Smart Chain", rpcUrl := none,
           blockExplorer := some "https://bscscan.com",
           currencySymbol := "BNB" }),
  ("8453", { chainId := "8453", name := "Base", rpcUrl := none,
             blockExplorer := some "https://basescan.org",
             currencySymbol := "ETH" })]

/-! ## JavaScript value helpers -/

/-- The test `v && v.length > 0` on an accounts response: null is falsy, an
array is always truthy and nonempty iff it has elements, a string is truthy
iff nonempty (and then its length is positive). -/
def jsAccountsNonempty : RpcValue → Bool
  | .nullv => false
  | .str s => !s.data.isEmpty
  | .list xs => !xs.isEmpty

/-- The access `accounts[0]` on the same shapes: first array element, first
character of a string, undefined (rendered as the empty handle) otherwise. -/
def jsFirstAccount : RpcValue → String
  | .nullv => ""
  | .str s => ⟨s.data.take 1⟩
  | .list xs => xs.headD ""

/-- The `String(...)` coercion: identity on strings, comma-join on arrays,
`"null"` on null. -/
def jsToString : RpcValue → String
  | .str s => s
  | .list xs => String.intercalate "," xs
  | .nullv => "null"

/-- Strict inequality `v !== lit` against a string literal: a value of
non-string shape is strictly unequal to every string. -/
def jsStrictNeString (v : RpcValue) (lit : String) : Bool :=
  match v with
  | .str t => t ≠ lit
  | _ => true

/-- The spread `...(transaction.value && { value: transaction.value })`: the
field is included iff the value is present and truthy (nonempty). -/
def jsOptValue : Option String → Option String
  | some s => if s.data.isEmpty then none else some s
  | none => none

/-! ## Embedded operations of `src/utils/wallet.ts` -/

/-- The chain-id normalization `getCurrencySymbol` (lines 278–282) and
`isChainSupported` (lines 291–295) apply inline before their registry lookup:
an id starting with `0x` is parsed base-16 (`parseInt(chainId, 16)`) and
rendered decimal (`.toString()`); any other id is returned unchanged. -/
def normalizeChainId (s : String) : String :=
  match s.data with
  | c0 :: c1 :: _ =>
    if c0 = '0' ∧ c1 = 'x' then ⟨numToStringBase 10 (jsParseIntBase16 s.data)⟩
    else s
  | _ => s

/-- Embeds `getCurrencySymbol` (wallet.ts lines 275–285): `'ETH'` for a null
or empty (falsy) id, otherwise the registry symbol under the normalized id,
with `'ETH'` as the `||` fallback. -/
def getCurrencySymbol (chainId : Option String) : String :=
  match chainId with
  | none => "ETH"
  | some cid =>
    if cid.data.isEmpty then "ETH"
    else
      match NETWORKS.lookup (normalizeChainId cid) with
      | some network =>
        if network.currencySymbol.data.isEmpty then "ETH"
        else network.currencySymbol
      | none => "ETH"

/-- Embeds `isChainSupported` (wallet.ts lines 288–298). -/
def isChainSupported (chainId : Option String) : Bool :=
  match chainId with
  | none => false
  | some cid =>
    if cid.data.isEmpty then false
    else (NETWORKS.lookup (normalizeChainId cid)).isSome

/-- Embeds `isValidAddress` (wallet.ts lines 263–265): the test of
`/^0x[a-fA-F0-9]{40}$/`. -/
def isValidAddress (s : String) : Bool :=
  match s.data with
  | c0 :: c1 :: rest =>
    c0 = '0' && c1 = 'x' && rest.length = 40 && rest.all isHexDigit
  | _ => false

/-- Embeds `isValidCalldata` (wallet.ts lines 268–270): the test of
`/^0x[a-fA-F0-9]*$/`. -/
def isValidCalldata (s : String) : Bool :=
  match s.data with
  | c0 :: c1 :: rest => c0 = '0' && c1 = 'x' && rest.all isHexDigit
  | _ => false

/-- The `chainId` request parameter `switchNetwork` builds twice:
`` `0x${parseInt(chainId).toString(16)}` ``. -/
def switchChainHexArg (chainId : String) : String :=
  ⟨'0' :: 'x' :: numToStringBase 16 (jsParseIntAuto chainId.data)⟩

/-- The `wallet_addEthereumChain` request `switchNetwork` builds from the
registry entry: hex chain id, display name, native currency named and
symbolled with the registry symbol, 18 decimals, the (absent) registry
`rpcUrl` as the single rpc url, and the explorer url when present and
truthy. -/
def addChainReq (chainId : String) (network : NetworkInfo) : Req :=
  Req.walletAddChain (switchChainHexArg chainId) network.name
    network.currencySymbol network.currencySymbol 18 [network.rpcUrl]
    (match network.blockExplorer with
      | some b => if b.data.isEmpty then [] else [b]
      | none => [])

/-- Embeds `switchNetwork` (wallet.ts lines 197–235): request the switch; on
a rejection with code 4902 look the raw target id up in `NETWORKS` and, when
present, request `wallet_addEthereumChain` with the registry metadata
(propagating its failure), resolving silently when absent; propagate any
other rejection.  Second component: the ordered requests issued. -/
def switchNetwork (p : Provider) (chainId : String) :
    Except JsError Unit × List Req :=
  let req1 := Req.walletSwitchChain (switchChainHexArg chainId)
  match p [] req1 with
  | .ok _ => (.ok (), [req1])
  | .error e =>
    if e.code = some 4902 then
      match NETWORKS.lookup chainId with
      | some network =>
        match p [req1] (addChainReq chainId network) with
        | .ok _ => (.ok (), [req1, addChainReq chainId network])
        | .error e2 => (.error e2, [req1, addChainReq chainId network])
      | none => (.ok (), [req1])
    else (.error e, [req1])

/-- The body of the `try` block of `sendTransaction` (wallet.ts lines
151–178): fetch accounts, reject when none are connected, then send with the
first account as sender. -/
def sendTransactionTry (p : Provider) (tx : TransactionRequest) :
    Except JsError RpcValue × List Req :=
  match p [] Req.ethAccounts with
  | .error e => (.error e, [Req.ethAccounts])
  | .ok accounts =>
    if jsAccountsNonempty accounts = false then
      (.error { code := none, message := "No accounts connected",
                isErrorInstance := true }, [Req.ethAccounts])
    else
      let req2 := Req.ethSendTransaction (jsFirstAccount accounts)
        tx.toAddr tx.callData (jsOptValue tx.value)
      match p [Req.ethAccounts] req2 with
      | .error e => (.error e, [Req.ethAccounts, req2])
      | .ok txHash => (.ok txHash, [Req.ethAccounts, req2])

/-- Embeds `sendTransaction` (wallet.ts lines 147–194): the result of the try
block on success; on any rejection the catch block builds
`{hash: '', success: false, error: <message>}` (every error this code can
observe is an object with a `message` property, which the catch stringifies).
Second component: the ordered requests issued. -/
def sendTransaction (p : Provider) (tx : TransactionRequest) :
    TransactionResult × List Req :=
  match sendTransactionTry p tx with
  | (.ok h, tr) => ({ hash := h, success := true, error := none }, tr)
  | (.error e, tr) =>
    ({ hash := .str "", success := false, error := some e.message }, tr)

/-- The shape of `window.ethereum` this code inspects: a provider handle and
the optional `isRabby` flag. -/
structure EthereumProvider where
  provider : Provider
  isRabby : Option Bool

/-- The execution environment `detectRabbyWallet` reads: whether `window` is
defined, and the optional injected `window.rabby` and `window.ethereum`. -/
structure Env where
  windowDefined : Bool
  rabby : Option Provider
  ethereum : Option EthereumProvider

/-- Embeds `detectRabbyWallet` (wallet.ts lines 29–61): the cached provider
if set; else null without a window; else `window.rabby`; else
`window.ethereum` exactly when its `isRabby` flag is `true`.  Returns the
result together with the updated cache. -/
def detectRabbyWallet (cache : Option Provider) (env : Env) :
    Option Provider × Option Provider :=
  match cache with
  | some p => (some p, some p)
  | none =>
    if env.windowDefined = false then (none, none)
    else
      match env.rabby with
      | some p => (some p, some p)
      | none =>
        match env.ethereum with
        | some ep =>
          if ep.isRabby = some true then (some ep.provider, some ep.provider)
          else (none, none)
        | none => (none, none)

/-- The success value of `connectWallet`. -/
structure ConnectResult where
  provider : Provider
  account : String
  chainId : String

/-- The wrapper the catch block of `connectWallet` applies: `Error` instances
have their message prefixed, anything else becomes the unknown-error
message. -/
def connectWrap (e : JsError) : JsError :=
  if e.isErrorInstance then
    { code := none,
      message := "Failed to connect to Rabby wallet: " ++ e.message,
      isErrorInstance := true }
  else
    { code := none,
      message := "Failed to connect to Rabby wallet: Unknown error",
      isErrorInstance := true }

/-- The tail of `connectWallet` after the accounts list is settled: reject
when it is empty, else query `eth_chainId` and return the handle, the first
account, and the decimal rendering of the base-16 parse of the chain id. -/
def connectFinish (p : Provider) (accounts : RpcValue) (tr : List Req) :
    Except JsError ConnectResult × List Req :=
  if jsAccountsNonempty accounts = false then
    (.error (connectWrap
      ⟨none, "No accounts found. Please unlock your Rabby wallet.", true⟩), tr)
  else
    match p tr Req.ethChainId with
    | .error e => (.error (connectWrap e), tr ++ [Req.ethChainId])
    | .ok hexChainId =>
      (.ok { provider := p, account := jsFirstAccount accounts,
             chainId := ⟨numToStringBase 10
               (jsParseIntBase16 (jsToString hexChainId).data)⟩ },
       tr ++ [Req.ethChainId])

/-- Embeds `connectWallet` (wallet.ts lines 69–121): fail without a detected
provider; else query `eth_accounts` and use its result when truthy and
nonempty, requesting `eth_requestAccounts` otherwise; then finish as in
`connectFinish`.  Failures inside the try block pass through the catch
wrapper.  Second component: the ordered requests issued. -/
def connectWallet (cache : Option Provider) (env : Env) :
    Except JsError ConnectResult × List Req :=
  match (detectRabbyWallet cache env).1 with
  | none =>
    (.error
      ⟨none,
       "Rabby wallet not detected. Please install Rabby wallet extension.",
       true⟩, [])
  | some p =>
    match p [] Req.ethAccounts with
    | .error e => (.error (connectWrap e), [Req.ethAccounts])
    | .ok current =>
      if jsAccountsNonempty current then
        connectFinish p current [Req.ethAccounts]
      else
        match p [Req.ethAccounts] Req.ethRequestAccounts with
        | .error e =>
          (.error (connectWrap e), [Req.ethAccounts, Req.ethRequestAccounts])
        | .ok acc =>
          connectFinish p acc [Req.ethAccounts, Req.ethRequestAccounts]

/-! ## Embedded operations of `src/utils/eip7702.ts` -/

/-- Embeds `checkAddressHasCode` (eip7702.ts lines 4–19): query the code at
the address at the `latest` tag; on success the result is exactly
`code !== '0x' && code !== '0x0'`; any rejection yields `false`. -/
def checkAddressHasCode (p : Provider) (address : String) : Bool × List Req :=
  match p [] (Req.ethGetCode address "latest") with
  | .ok code =>
    (jsStrictNeString code "0x" && jsStrictNeString code "0x0",
     [Req.ethGetCode address "latest"])
  | .error _ => (false, [Req.ethGetCode address "latest"])

/-! ## Embedded payload construction of `TransactionForm.tsx` -/

/-- Embeds the `value` field `handleSubmit` (TransactionForm.tsx lines
136–160) places in the submitted payload:
`...(finalValue && { value: `0x${parseInt(finalValue).toString(16)}` })` —
included iff `finalValue` is a nonempty string, and built from the
double-precision `parseInt` of the base-unit string. -/
def handleSubmitPayloadValue (finalValue : String) : Option String :=
  if finalValue.data.isEmpty then none
  else some ⟨'0' :: 'x' :: numToStringBase 16 (jsParseIntAuto finalValue.data)⟩

/-! ## Claim theorems -/

theorem char_le_iff_toNat (a b : Char) : a ≤ b ↔ a.toNat ≤ b.toNat := by
  rw [Char.le_def]
  exact ⟨fun h => h, fun h => h⟩

theorem isHexDigit_iff (c : Char) :
    isHexDigit c = true ↔
      ('0' ≤ c ∧ c ≤ '9') ∨ ('a' ≤ c ∧ c ≤ 'f') ∨ ('A' ≤ c ∧ c ≤ 'F') := by
  unfold isHexDigit
  simp only [Bool.or_eq_true, Bool.and_eq_true, decide_eq_true_eq]
  constructor
  · rintro ((⟨h1, h2⟩ | ⟨h1, h2⟩) | ⟨h1, h2⟩)
    · exact Or.inl
        ⟨(char_le_iff_toNat _ _).mpr h1, (char_le_iff_toNat _ _).mpr h2⟩
    · exact Or.inr (Or.inl
        ⟨(char_le_iff_toNat _ _).mpr h1, (char_le_iff_toNat _ _).mpr h2⟩)
    · exact Or.inr (Or.inr
        ⟨(char_le_iff_toNat _ _).mpr h1, (char_le_iff_toNat _ _).mpr h2⟩)
  · rintro (⟨h1, h2⟩ | ⟨h1, h2⟩ | ⟨h1, h2⟩)
    · exact Or.inl (Or.inl
        ⟨(char_le_iff_toNat _ _).mp h1, (char_le_iff_toNat _ _).mp h2⟩)
    · exact Or.inl (Or.inr
        ⟨(char_le_iff_toNat _ _).mp h1, (char_le_iff_toNat _ _).mp h2⟩)
    · exact Or.inr
        ⟨(char_le_iff_toNat _ _).mp h1, (char_le_iff_toNat _ _).mp h2⟩

/-- C4: `isValidAddress s` is true exactly when `s` consists of the prefix
`0x` followed by exactly 40 hexadecimal characters (`0`–`9`, `a`–`f`,
`A`–`F`); every other string yields `false`, and the predicate is total (no
exception). -/
theorem isValidAddress_spec (s : String) :
    isValidAddress s = true ↔
      ∃ t : List Char, s.data = '0' :: 'x' :: t ∧ t.length = 40 ∧
        ∀ c ∈ t,
          ('0' ≤ c ∧ c ≤ '9') ∨ ('a' ≤ c ∧ c ≤ 'f') ∨ ('A' ≤ c ∧ c ≤ 'F') := by
  unfold isValidAddress
  rcases hdata : s.data with _ | ⟨c0, _ | ⟨c1, rest⟩⟩
  · simp
  · simp
  · simp only [Bool.and_eq_true, decide_eq_true_eq, List.all_eq_true]
    constructor
    · intro h
      obtain ⟨⟨⟨hc0, hc1⟩, hlen⟩, hall⟩ := h
      exact ⟨rest, by rw [hc0, hc1], hlen,
        fun c hc => (isHexDigit_iff c).mp (hall c hc)⟩
    · intro h
      obtain ⟨t, ht, hlen, hall⟩ := h
      obtain ⟨h1, h2, h3⟩ : c0 = '0' ∧ c1 = 'x' ∧ rest = t := by
        simpa using ht
      subst h1
      subst h2
      subst h3
      exact ⟨⟨⟨rfl, rfl⟩, hlen⟩,
        fun c hc => (isHexDigit_iff c).mpr (hall c hc)⟩

/-- C7: `getCurrencySymbol "56"` is the BNB Smart Chain symbol `"BNB"`,
`getCurrencySymbol null` is the fallback `"ETH"`, and every id whose
normalized form is not a registry key yields the fallback `"ETH"`. -/
theorem getCurrencySymbol_spec :
    getCurrencySymbol (some "56") = "BNB" ∧
    getCurrencySymbol none = "ETH" ∧
    ∀ id : String, NETWORKS.lookup (normalizeChainId id) = none →
      getCurrencySymbol (some id) = "ETH" := by
  refine ⟨by decide, rfl, ?_⟩
  intro id hid
  simp only [getCurrencySymbol]
  by_cases hemp : id.data.isEmpty = true
  · rw [if_pos hemp]
  · rw [if_neg hemp, hid]

/-- C7 witness: an unregistered id falls back to `"ETH"`. -/
theorem getCurrencySymbol_spec_witness :
    getCurrencySymbol (some "999999") = "ETH" :=
  getCurrencySymbol_spec.2.2 "999999" (by decide)

/-- C8: `checkAddressHasCode` never throws; on a successful `eth_getCode`
query it returns true exactly when the returned code is neither `"0x"` nor
`"0x0"`, and on any query failure it returns `false`. -/
theorem checkAddressHasCode_spec (p : Provider) (addr : String) :
    (∀ v, p [] (Req.ethGetCode addr "latest") = .ok v →
      ((checkAddressHasCode p addr).1 = true ↔
        (v ≠ .str "0x" ∧ v ≠ .str "0x0"))) ∧
    (∀ e, p [] (Req.ethGetCode addr "latest") = .error e →
      (checkAddressHasCode p addr).1 = false) := by
  constructor
  · intro v hv
    unfold checkAddressHasCode
    rw [hv]
    match v with
    | .str t => simp [jsStrictNeString]
    | .list xs => simp [jsStrictNeString]
    | .nullv => simp [jsStrictNeString]
  · intro e he
    unfold checkAddressHasCode
    rw [he]

/-- A provider answering every request with a nonempty code blob. -/
def codeProviderEx : Provider := fun _ _ => .ok (.str "0x6080")

/-- C8 witness: with deployed code present the detector answers true. -/
theorem checkAddressHasCode_spec_witness :
    (checkAddressHasCode codeProviderEx "0xabc").1 = true :=
  ((checkAddressHasCode_spec codeProviderEx "0xabc").1 (.str "0x6080")
    rfl).mpr (by decide)

/-- C5: the normalization shared by the registry lookups of
`getCurrencySymbol` and `isChainSupported` maps an id beginning with `0x` to
the decimal rendering of its base-16 parse and leaves any other id unchanged;
`"0x1"` and `"1"` both normalize to `"1"`, and the two lookups agree on any
two spellings with the same normal form — in particular on the two spellings
of chain 1. -/
theorem normalizeChainId_spec :
    (∀ (id : String) (rest : List Char), id.data = '0' :: 'x' :: rest →
      normalizeChainId id = ⟨numToStringBase 10 (jsParseIntBase16 id.data)⟩) ∧
    (∀ id : String, (¬ ∃ rest, id.data = '0' :: 'x' :: rest) →
      normalizeChainId id = id) ∧
    normalizeChainId "0x1" = "1" ∧
    normalizeChainId "1" = "1" ∧
    (∀ id₁ id₂ : String, id₁.data ≠ [] → id₂.data ≠ [] →
      normalizeChainId id₁ = normalizeChainId id₂ →
      getCurrencySymbol (some id₁) = getCurrencySymbol (some id₂) ∧
      isChainSupported (some id₁) = isChainSupported (some id₂)) ∧
    getCurrencySymbol (some "0x1") = getCurrencySymbol (some "1") ∧
    isChainSupported (some "0x1") = isChainSupported (some "1") := by
  refine ⟨?_, ?_, by decide, rfl, ?_, by decide, by decide⟩
  · intro id rest h
    unfold normalizeChainId
    rw [h]
    show (if ('0' : Char) = '0' ∧ ('x' : Char) = 'x'
        then (⟨numToStringBase 10 (jsParseIntBase16 ('0' :: 'x' :: rest))⟩ : String)
        else id)
      = ⟨numToStringBase 10 (jsParseIntBase16 ('0' :: 'x' :: rest))⟩
    rw [if_pos ⟨rfl, rfl⟩]
  · intro id hne
    unfold normalizeChainId
    rcases hdata : id.data with _ | ⟨c0, _ | ⟨c1, rest⟩⟩
    · rfl
    · rfl
    · show (if c0 = '0' ∧ c1 = 'x'
          then (⟨numToStringBase 10 (jsParseIntBase16 (c0 :: c1 :: rest))⟩ : String)
          else id) = id
      rw [if_neg]
      rintro ⟨h0, h1⟩
      subst h0
      subst h1
      exact hne ⟨rest, hdata⟩
  · intro id₁ id₂ h1 h2 heq
    have h1' : id₁.data.isEmpty = false := by
      rcases hd : id₁.data with _ | _
      · exact absurd hd h1
      · rfl
    have h2' : id₂.data.isEmpty = false := by
      rcases hd : id₂.data with _ | _
      · exact absurd hd h2
      · rfl
    constructor
    · simp only [getCurrencySymbol]
      rw [if_neg (by rw [h1']; exact Bool.false_ne_true),
        if_neg (by rw [h2']; exact Bool.false_ne_true), heq]
    · simp only [isChainSupported]
      rw [if_neg (by rw [h1']; exact Bool.false_ne_true),
        if_neg (by rw [h2']; exact Bool.false_ne_true), heq]

/-- C5 witness: the two spellings of chain 1 agree through both lookups. -/
theorem normalizeChainId_spec_witness :
    getCurrencySymbol (some "0x1") = getCurrencySymbol (some "1") ∧
    isChainSupported (some "0x1") = isChainSupported (some "1") :=
  normalizeChainId_spec.2.2.2.2.1 "0x1" "1" (by decide) (by decide) (by decide)

theorem sendTransaction_accounts_error (p : Provider) (tx : TransactionRequest)
    (e : JsError) (he : p [] Req.ethAccounts = .error e) :
    sendTransaction p tx
      = (⟨.str "", false, some e.message⟩, [Req.ethAccounts]) := by
  simp only [sendTransaction, sendTransactionTry, he]

theorem sendTransaction_no_accounts (p : Provider) (tx : TransactionRequest)
    (v : RpcValue) (hv : p [] Req.ethAccounts = .ok v)
    (hne : jsAccountsNonempty v = false) :
    sendTransaction p tx
      = (⟨.str "", false, some "No accounts connected"⟩, [Req.ethAccounts]) := by
  simp [sendTransaction, sendTransactionTry, hv, hne]

theorem sendTransaction_send_error (p : Provider) (tx : TransactionRequest)
    (v : RpcValue) (e : JsError) (hv : p [] Req.ethAccounts = .ok v)
    (hne : jsAccountsNonempty v = true)
    (he : p [Req.ethAccounts] (Req.ethSendTransaction (jsFirstAccount v)
      tx.toAddr tx.callData (jsOptValue tx.value)) = .error e) :
    sendTransaction p tx
      = (⟨.str "", false, some e.message⟩,
         [Req.ethAccounts, Req.ethSendTransaction (jsFirstAccount v)
           tx.toAddr tx.callData (jsOptValue tx.value)]) := by
  simp [sendTransaction, sendTransactionTry, hv, hne, he]

theorem sendTransaction_send_ok (p : Provider) (tx : TransactionRequest)
    (v h : RpcValue) (hv : p [] Req.ethAccounts = .ok v)
    (hne : jsAccountsNonempty v = true)
    (hh : p [Req.ethAccounts] (Req.ethSendTransaction (jsFirstAccount v)
      tx.toAddr tx.callData (jsOptValue tx.value)) = .ok h) :
    sendTransaction p tx
      = (⟨h, true, none⟩,
         [Req.ethAccounts, Req.ethSendTransaction (jsFirstAccount v)
           tx.toAddr tx.callData (jsOptValue tx.value)]) := by
  simp [sendTransaction, sendTransactionTry, hv, hne, hh]

/-- C1: `sendTransaction` never throws and reports uniformly through its
result: the value is always either the success shape (the provider's hash,
`success`, no error field) or the failure shape (empty hash, failure, the
captured message).  An `eth_accounts` rejection, an empty account list
(message `"No accounts connected"`), and a send rejection each produce the
failure shape with the corresponding message; a successful send produces the
success shape with the returned hash. -/
theorem sendTransaction_spec (p : Provider) (tx : TransactionRequest) :
    ((∃ h, (sendTransaction p tx).1 = ⟨h, true, none⟩) ∨
      (∃ m, (sendTransaction p tx).1 = ⟨.str "", false, some m⟩)) ∧
    (∀ e, p [] Req.ethAccounts = .error e →
      sendTransaction p tx
        = (⟨.str "", false, some e.message⟩, [Req.ethAccounts])) ∧
    (∀ v, p [] Req.ethAccounts = .ok v → jsAccountsNonempty v = false →
      sendTransaction p tx
        = (⟨.str "", false, some "No accounts connected"⟩, [Req.ethAccounts])) ∧
    (∀ v e, p [] Req.ethAccounts = .ok v → jsAccountsNonempty v = true →
      p [Req.ethAccounts] (Req.ethSendTransaction (jsFirstAccount v)
        tx.toAddr tx.callData (jsOptValue tx.value)) = .error e →
      sendTransaction p tx
        = (⟨.str "", false, some e.message⟩,
           [Req.ethAccounts, Req.ethSendTransaction (jsFirstAccount v)
             tx.toAddr tx.callData (jsOptValue tx.value)])) ∧
    (∀ v h, p [] Req.ethAccounts = .ok v → jsAccountsNonempty v = true →
      p [Req.ethAccounts] (Req.ethSendTransaction (jsFirstAccount v)
        tx.toAddr tx.callData (jsOptValue tx.value)) = .ok h →
      sendTransaction p tx
        = (⟨h, true, none⟩,
           [Req.ethAccounts, Req.ethSendTransaction (jsFirstAccount v)
             tx.toAddr tx.callData (jsOptValue tx.value)])) := by
  refine ⟨?_, fun e he => sendTransaction_accounts_error p tx e he,
    fun v hv hne => sendTransaction_no_accounts p tx v hv hne,
    fun v e hv hne he => sendTransaction_send_error p tx v e hv hne he,
    fun v h hv hne hh => sendTransaction_send_ok p tx v h hv hne hh⟩
  cases hacc : p [] Req.ethAccounts with
  | error e =>
    right
    exact ⟨e.message, by rw [sendTransaction_accounts_error p tx e hacc]⟩
  | ok v =>
    cases hne : jsAccountsNonempty v with
    | false =>
      right
      exact ⟨"No accounts connected",
        by rw [sendTransaction_no_accounts p tx v hacc hne]⟩
    | true =>
      cases hsend : p [Req.ethAccounts] (Req.ethSendTransaction
          (jsFirstAccount v) tx.toAddr tx.callData (jsOptValue tx.value)) with
      | error e =>
        right
        exact ⟨e.message,
          by rw [sendTransaction_send_error p tx v e hacc hne hsend]⟩
      | ok h =>
        left
        exact ⟨h, by rw [sendTransaction_send_ok p tx v h hacc hne hsend]⟩

/-- A provider with one connected account that accepts the send. -/
def sendProviderEx : Provider := fun _ req =>
  match req with
  | Req.ethAccounts => .ok (.list ["0xaaa"])
  | Req.ethSendTransaction _ _ _ _ => .ok (.str "0xhash")
  | _ => .ok .nullv

/-- The transaction request used by the C1 witness. -/
def txEx : TransactionRequest := ⟨"0xdead", "0xbeef", none⟩

/-- C1 witness: a concrete successful submission. -/
theorem sendTransaction_spec_witness :
    sendTransaction sendProviderEx txEx
      = (⟨.str "0xhash", true, none⟩,
         [Req.ethAccounts,
          Req.ethSendTransaction "0xaaa" "0xdead" "0xbeef" none]) :=
  (sendTransaction_spec sendProviderEx txEx).2.2.2.2
    (.list ["0xaaa"]) (.str "0xhash") rfl rfl rfl

theorem switchNetwork_sw_ok (p : Provider) (chainId : String) (v : RpcValue)
    (h : p [] (Req.walletSwitchChain (switchChainHexArg chainId)) = .ok v) :
    switchNetwork p chainId
      = (.ok (), [Req.walletSwitchChain (switchChainHexArg chainId)]) := by
  simp [switchNetwork, h]

theorem switchNetwork_sw_other (p : Provider) (chainId : String) (e : JsError)
    (h : p [] (Req.walletSwitchChain (switchChainHexArg chainId)) = .error e)
    (hc : ¬e.code = some 4902) :
    switchNetwork p chainId
      = (.error e, [Req.walletSwitchChain (switchChainHexArg chainId)]) := by
  simp [switchNetwork, h, hc]

theorem switchNetwork_4902_none (p : Provider) (chainId : String) (e : JsError)
    (h : p [] (Req.walletSwitchChain (switchChainHexArg chainId)) = .error e)
    (hc : e.code = some 4902) (hn : NETWORKS.lookup chainId = none) :
    switchNetwork p chainId
      = (.ok (), [Req.walletSwitchChain (switchChainHexArg chainId)]) := by
  simp [switchNetwork, h, hc, hn]

theorem switchNetwork_4902_add_ok (p : Provider) (chainId : String)
    (e : JsError) (network : NetworkInfo) (v : RpcValue)
    (h : p [] (Req.walletSwitchChain (switchChainHexArg chainId)) = .error e)
    (hc : e.code = some 4902) (hn : NETWORKS.lookup chainId = some network)
    (ha : p [Req.walletSwitchChain (switchChainHexArg chainId)]
      (addChainReq chainId network) = .ok v) :
    switchNetwork p chainId
      = (.ok (), [Req.walletSwitchChain (switchChainHexArg chainId),
          addChainReq chainId network]) := by
  simp [switchNetwork, h, hc, hn, ha]

theorem switchNetwork_4902_add_error (p : Provider) (chainId : String)
    (e : JsError) (network : NetworkInfo) (e2 : JsError)
    (h : p [] (Req.walletSwitchChain (switchChainHexArg chainId)) = .error e)
    (hc : e.code = some 4902) (hn : NETWORKS.lookup chainId = some network)
    (ha : p [Req.walletSwitchChain (switchChainHexArg chainId)]
      (addChainReq chainId network) = .error e2) :
    switchNetwork p chainId
      = (.error e2, [Req.walletSwitchChain (switchChainHexArg chainId),
          addChainReq chainId network]) := by
  simp [switchNetwork, h, hc, hn, ha]

/-- C2 (amended): on a provider rejection of the switch with code 4902,
`switchNetwork` requests `wallet_addEthereumChain` with registry metadata
when the target chain is a registry key (resolving silently with no further
request when it is not), propagates an add failure, and never retries the
switch — the switch request appears at most once in every trace; a rejection
with any other code propagates to the caller. -/
theorem switchNetwork_spec (p : Provider) (chainId : String) :
    (∀ v, p [] (Req.walletSwitchChain (switchChainHexArg chainId)) = .ok v →
      switchNetwork p chainId
        = (.ok (), [Req.walletSwitchChain (switchChainHexArg chainId)])) ∧
    (∀ e, p [] (Req.walletSwitchChain (switchChainHexArg chainId)) = .error e →
      ¬e.code = some 4902 →
      switchNetwork p chainId
        = (.error e, [Req.walletSwitchChain (switchChainHexArg chainId)])) ∧
    (∀ e, p [] (Req.walletSwitchChain (switchChainHexArg chainId)) = .error e →
      e.code = some 4902 → NETWORKS.lookup chainId = none →
      switchNetwork p chainId
        = (.ok (), [Req.walletSwitchChain (switchChainHexArg chainId)])) ∧
    (∀ e network v,
      p [] (Req.walletSwitchChain (switchChainHexArg chainId)) = .error e →
      e.code = some 4902 → NETWORKS.lookup chainId = some network →
      p [Req.walletSwitchChain (switchChainHexArg chainId)]
        (addChainReq chainId network) = .ok v →
      switchNetwork p chainId
        = (.ok (), [Req.walletSwitchChain (switchChainHexArg chainId),
            addChainReq chainId network])) ∧
    (∀ e network e2,
      p [] (Req.walletSwitchChain (switchChainHexArg chainId)) = .error e →
      e.code = some 4902 → NETWORKS.lookup chainId = some network →
      p [Req.walletSwitchChain (switchChainHexArg chainId)]
        (addChainReq chainId network) = .error e2 →
      switchNetwork p chainId
        = (.error e2, [Req.walletSwitchChain (switchChainHexArg chainId),
            addChainReq chainId network])) ∧
    (switchNetwork p chainId).2.count
      (Req.walletSwitchChain (switchChainHexArg chainId)) ≤ 1 := by
  refine ⟨fun v h => switchNetwork_sw_ok p chainId v h,
    fun e h hc => switchNetwork_sw_other p chainId e h hc,
    fun e h hc hn => switchNetwork_4902_none p chainId e h hc hn,
    fun e network v h hc hn ha =>
      switchNetwork_4902_add_ok p chainId e network v h hc hn ha,
    fun e network e2 h hc hn ha =>
      switchNetwork_4902_add_error p chainId e network e2 h hc hn ha, ?_⟩
  cases hsw : p [] (Req.walletSwitchChain (switchChainHexArg chainId)) with
  | ok v =>
    rw [switchNetwork_sw_ok p chainId v hsw]
    simp
  | error e =>
    by_cases hc : e.code = some 4902
    · cases hn : NETWORKS.lookup chainId with
      | none =>
        rw [switchNetwork_4902_none p chainId e hsw hc hn]
        simp
      | some network =>
        cases ha : p [Req.walletSwitchChain (switchChainHexArg chainId)]
            (addChainReq chainId network) with
        | ok v =>
          rw [switchNetwork_4902_add_ok p chainId e network v hsw hc hn ha]
          simp [addChainReq, List.count_cons]
        | error e2 =>
          rw [switchNetwork_4902_add_error p chainId e network e2 hsw hc hn ha]
          simp [addChainReq, List.count_cons]
    · rw [switchNetwork_sw_other p chainId e hsw hc]
      simp

/-- A provider rejecting every switch request with code 4902 and accepting
everything else. -/
def switchProvider4902 : Provider := fun _ req =>
  match req with
  | Req.walletSwitchChain _ => .error ⟨some 4902, "Unrecognized chain ID", true⟩
  | _ => .ok .nullv

/-- C2 counterexample: against the registered chain `"56"` and a provider
rejecting the switch with code 4902, `switchNetwork` issues the add-chain
request with the registry metadata and resolves — but the switch request
appears exactly once in the trace: the switch is never retried after the
add. -/
theorem switchNetwork_no_retry_cex :
    switchNetwork switchProvider4902 "56"
      = (.ok (), [Req.walletSwitchChain "0x38",
          Req.walletAddChain "0x38" "BNB Smart Chain" "BNB" "BNB" 18 [none]
            ["https://bscscan.com"]]) ∧
    (switchNetwork switchProvider4902 "56").2.count
      (Req.walletSwitchChain "0x38") = 1 := by
  constructor
  · rfl
  · rfl

/-- C2 witness: the amended add-then-no-retry behaviour at chain `"56"`. -/
theorem switchNetwork_spec_witness :
    switchNetwork switchProvider4902 "56"
      = (.ok (), [Req.walletSwitchChain (switchChainHexArg "56"),
          addChainReq "56" ⟨"56", "BNB Smart Chain", none,
            some "https://bscscan.com", "BNB"⟩]) :=
  (switchNetwork_spec switchProvider4902 "56").2.2.2.1
    ⟨some 4902, "Unrecognized chain ID", true⟩
    ⟨"56", "BNB Smart Chain", none, some "https://bscscan.com", "BNB"⟩
    .nullv rfl rfl rfl rfl

/-- C10: when the provider rejects the switch with code 4902 and the target
id is not a key of `NETWORKS`, `switchNetwork` resolves successfully having
issued only the one switch request — no `wallet_addEthereumChain` request and
no retry of the switch. -/
theorem switchNetwork_unregistered_spec (p : Provider) (chainId : String)
    (e : JsError)
    (hsw : p [] (Req.walletSwitchChain (switchChainHexArg chainId)) = .error e)
    (hc : e.code = some 4902) (hn : NETWORKS.lookup chainId = none) :
    switchNetwork p chainId
      = (.ok (), [Req.walletSwitchChain (switchChainHexArg chainId)]) := by
  simp [switchNetwork, hsw, hc, hn]

/-- C10 witness: the unregistered chain `"2"`. -/
theorem switchNetwork_unregistered_spec_witness :
    switchNetwork switchProvider4902 "2"
      = (.ok (), [Req.walletSwitchChain (switchChainHexArg "2")]) :=
  switchNetwork_unregistered_spec switchProvider4902 "2"
    ⟨some 4902, "Unrecognized chain ID", true⟩ rfl rfl rfl

theorem connectWallet_no_provider (cache : Option Provider) (env : Env)
    (h : (detectRabbyWallet cache env).1 = none) :
    connectWallet cache env
      = (.error ⟨none,
          "Rabby wallet not detected. Please install Rabby wallet extension.",
          true⟩, []) := by
  simp [connectWallet, h]

theorem connectWallet_zero_accounts (cache : Option Provider) (env : Env)
    (p : Provider) (v w : RpcValue)
    (hdet : (detectRabbyWallet cache env).1 = some p)
    (hv : p [] Req.ethAccounts = .ok v) (hvne : jsAccountsNonempty v = false)
    (hw : p [Req.ethAccounts] Req.ethRequestAccounts = .ok w)
    (hwne : jsAccountsNonempty w = false) :
    connectWallet cache env
      = (.error (connectWrap
          ⟨none, "No accounts found. Please unlock your Rabby wallet.", true⟩),
         [Req.ethAccounts, Req.ethRequestAccounts]) := by
  simp [connectWallet, connectFinish, hdet, hv, hvne, hw, hwne]

theorem connectWallet_ok_direct (cache : Option Provider) (env : Env)
    (p : Provider) (v c : RpcValue)
    (hdet : (detectRabbyWallet cache env).1 = some p)
    (hv : p [] Req.ethAccounts = .ok v) (hvne : jsAccountsNonempty v = true)
    (hc : p [Req.ethAccounts] Req.ethChainId = .ok c) :
    connectWallet cache env
      = (.ok ⟨p, jsFirstAccount v,
          ⟨numToStringBase 10 (jsParseIntBase16 (jsToString c).data)⟩⟩,
         [Req.ethAccounts, Req.ethChainId]) := by
  simp [connectWallet, connectFinish, hdet, hv, hvne, hc]

theorem connectWallet_ok_interactive (cache : Option Provider) (env : Env)
    (p : Provider) (v w c : RpcValue)
    (hdet : (detectRabbyWallet cache env).1 = some p)
    (hv : p [] Req.ethAccounts = .ok v) (hvne : jsAccountsNonempty v = false)
    (hw : p [Req.ethAccounts] Req.ethRequestAccounts = .ok w)
    (hwne : jsAccountsNonempty w = true)
    (hc : p [Req.ethAccounts, Req.ethRequestAccounts] Req.ethChainId = .ok c) :
    connectWallet cache env
      = (.ok ⟨p, jsFirstAccount w,
          ⟨numToStringBase 10 (jsParseIntBase16 (jsToString c).data)⟩⟩,
         [Req.ethAccounts, Req.ethRequestAccounts, Req.ethChainId]) := by
  simp [connectWallet, connectFinish, hdet, hv, hvne, hw, hwne, hc]

theorem connectWallet_head (cache : Option Provider) (env : Env) (p : Provider)
    (hdet : (detectRabbyWallet cache env).1 = some p) :
    (connectWallet cache env).2.head? = some Req.ethAccounts := by
  cases hv : p [] Req.ethAccounts with
  | error e => simp [connectWallet, hdet, hv]
  | ok v =>
    cases hvne : jsAccountsNonempty v with
    | true =>
      cases hc : p [Req.ethAccounts] Req.ethChainId with
      | error e => simp [connectWallet, connectFinish, hdet, hv, hvne, hc]
      | ok c => simp [connectWallet, connectFinish, hdet, hv, hvne, hc]
    | false =>
      cases hw : p [Req.ethAccounts] Req.ethRequestAccounts with
      | error e => simp [connectWallet, hdet, hv, hvne, hw]
      | ok w =>
        cases hwne : jsAccountsNonempty w with
        | false => simp [connectWallet, connectFinish, hdet, hv, hvne, hw, hwne]
        | true =>
          cases hc : p [Req.ethAccounts, Req.ethRequestAccounts]
              Req.ethChainId with
          | error e =>
            simp [connectWallet, connectFinish, hdet, hv, hvne, hw, hwne, hc]
          | ok c =>
            simp [connectWallet, connectFinish, hdet, hv, hvne, hw, hwne, hc]

theorem connectWallet_no_interactive (cache : Option Provider) (env : Env)
    (p : Provider) (v : RpcValue)
    (hdet : (detectRabbyWallet cache env).1 = some p)
    (hv : p [] Req.ethAccounts = .ok v) (hvne : jsAccountsNonempty v = true) :
    Req.ethRequestAccounts ∉ (connectWallet cache env).2 := by
  cases hc : p [Req.ethAccounts] Req.ethChainId with
  | error e => simp [connectWallet, connectFinish, hdet, hv, hvne, hc]
  | ok c => simp [connectWallet, connectFinish, hdet, hv, hvne, hc]

theorem connectWallet_interactive (cache : Option Provider) (env : Env)
    (p : Provider) (v : RpcValue)
    (hdet : (detectRabbyWallet cache env).1 = some p)
    (hv : p [] Req.ethAccounts = .ok v) (hvne : jsAccountsNonempty v = false) :
    Req.ethRequestAccounts ∈ (connectWallet cache env).2 := by
  cases hw : p [Req.ethAccounts] Req.ethRequestAccounts with
  | error e => simp [connectWallet, hdet, hv, hvne, hw]
  | ok w =>
    cases hwne : jsAccountsNonempty w with
    | false => simp [connectWallet, connectFinish, hdet, hv, hvne, hw, hwne]
    | true =>
      cases hc : p [Req.ethAccounts, Req.ethRequestAccounts]
          Req.ethChainId with
      | error e =>
        simp [connectWallet, connectFinish, hdet, hv, hvne, hw, hwne, hc]
      | ok c =>
        simp [connectWallet, connectFinish, hdet, hv, hvne, hw, hwne, hc]

/-- C6: `connectWallet` throws when no provider was detected and when
authorization yields zero accounts; with a detected provider it always issues
`eth_accounts` first and issues `eth_requestAccounts` exactly when the
already-authorized list was not truthy-nonempty; and each successful path
returns the provider handle, the first account of the list used, and the
current chain id rendered as the decimal string of its base-16 parse. -/
theorem connectWallet_spec (cache : Option Provider) (env : Env) :
    ((detectRabbyWallet cache env).1 = none →
      connectWallet cache env
        = (.error ⟨none,
            "Rabby wallet not detected. Please install Rabby wallet extension.",
            true⟩, [])) ∧
    (∀ p, (detectRabbyWallet cache env).1 = some p →
      ((connectWallet cache env).2.head? = some Req.ethAccounts) ∧
      (∀ v, p [] Req.ethAccounts = .ok v → jsAccountsNonempty v = true →
        Req.ethRequestAccounts ∉ (connectWallet cache env).2) ∧
      (∀ v, p [] Req.ethAccounts = .ok v → jsAccountsNonempty v = false →
        Req.ethRequestAccounts ∈ (connectWallet cache env).2) ∧
      (∀ v w, p [] Req.ethAccounts = .ok v → jsAccountsNonempty v = false →
        p [Req.ethAccounts] Req.ethRequestAccounts = .ok w →
        jsAccountsNonempty w = false →
        connectWallet cache env
          = (.error (connectWrap ⟨none,
              "No accounts found. Please unlock your Rabby wallet.", true⟩),
             [Req.ethAccounts, Req.ethRequestAccounts])) ∧
      (∀ v c, p [] Req.ethAccounts = .ok v → jsAccountsNonempty v = true →
        p [Req.ethAccounts] Req.ethChainId = .ok c →
        connectWallet cache env
          = (.ok ⟨p, jsFirstAccount v,
              ⟨numToStringBase 10 (jsParseIntBase16 (jsToString c).data)⟩⟩,
             [Req.ethAccounts, Req.ethChainId])) ∧
      (∀ v w c, p [] Req.ethAccounts = .ok v → jsAccountsNonempty v = false →
        p [Req.ethAccounts] Req.ethRequestAccounts = .ok w →
        jsAccountsNonempty w = true →
        p [Req.ethAccounts, Req.ethRequestAccounts] Req.ethChainId = .ok c →
        connectWallet cache env
          = (.ok ⟨p, jsFirstAccount w,
              ⟨numToStringBase 10 (jsParseIntBase16 (jsToString c).data)⟩⟩,
             [Req.ethAccounts, Req.ethRequestAccounts, Req.ethChainId]))) := by
  refine ⟨fun h => connectWallet_no_provider cache env h, fun p hdet => ?_⟩
  exact ⟨connectWallet_head cache env p hdet,
    fun v hv hvne => connectWallet_no_interactive cache env p v hdet hv hvne,
    fun v hv hvne => connectWallet_interactive cache env p v hdet hv hvne,
    fun v w hv hvne hw hwne =>
      connectWallet_zero_accounts cache env p v w hdet hv hvne hw hwne,
    fun v c hv hvne hc =>
      connectWallet_ok_direct cache env p v c hdet hv hvne hc,
    fun v w c hv hvne hw hwne hc =>
      connectWallet_ok_interactive cache env p v w c hdet hv hvne hw hwne hc⟩

/-- A provider with two authorized accounts on chain `0x38`. -/
def connectProviderEx : Provider := fun _ req =>
  match req with
  | Req.ethAccounts => .ok (.list ["0xacc1", "0xacc2"])
  | Req.ethChainId => .ok (.str "0x38")
  | _ => .ok .nullv

/-- The environment for the C6 witness: `window.rabby` is injected. -/
def connectEnvEx : Env := ⟨true, some connectProviderEx, none⟩

/-- C6 witness: a concrete already-authorized connection, returning the first
account and the decimal chain id, with no interactive request. -/
theorem connectWallet_spec_witness :
    connectWallet none connectEnvEx
      = (.ok ⟨connectProviderEx, "0xacc1", "56"⟩,
         [Req.ethAccounts, Req.ethChainId]) :=
  ((connectWallet_spec none connectEnvEx).2 connectProviderEx rfl).2.2.2.2.1
    (.list ["0xacc1", "0xacc2"]) (.str "0x38") rfl rfl rfl

theorem takeWhile_all (p : Char → Bool) (l : List Char)
    (h : ∀ c ∈ l, p c = true) : l.takeWhile p = l := by
  induction l with
  | nil => rfl
  | cons c cs ih =>
    rw [List.takeWhile_cons, if_pos (h c (by simp))]
    rw [ih (fun x hx => h x (by simp [hx]))]

theorem jsParseIntAuto_digits (l : List Char) (hne : l ≠ [])
    (hd : ∀ c ∈ l, isDecDigit c = true) :
    jsParseIntAuto l = some (roundToDouble (digitsVal 10 l)) := by
  have hdec : decPrefixVal l = some (roundToDouble (digitsVal 10 l)) := by
    unfold decPrefixVal
    rw [takeWhile_all isDecDigit l hd]
    rw [if_neg (by simpa [List.isEmpty_iff] using hne)]
  match l, hne with
  | [c], _ => exact hdec
  | c0 :: c1 :: rest, _ =>
    show (if c0 = '0' ∧ (c1 = 'x' ∨ c1 = 'X')
        then hexPrefixVal rest else decPrefixVal (c0 :: c1 :: rest))
      = some (roundToDouble (digitsVal 10 (c0 :: c1 :: rest)))
    rw [if_neg, hdec]
    rintro ⟨_, hx | hX⟩
    · have := hd c1 (by simp)
      rw [hx] at this
      exact absurd this (by decide)
    · have := hd c1 (by simp)
      rw [hX] at this
      exact absurd this (by decide)

set_option maxRecDepth 100000 in
/-- C9: with a nonempty base-unit digit string entered, `handleSubmit` places
`"0x"` + the hexadecimal rendering of the IEEE-754-double `parseInt` of
the string into the payload; the submitted value re-parses to the entered
integer exactly when the double rounding fixes that integer, and every
integer below `2 ^ 53` is fixed; the valid input `9007199254740993 = 2^53 + 1`
is submitted as `0x20000000000000 = 2^53`, differing from the entered
amount. -/
theorem handleSubmit_double_spec :
    (∀ s : String, s.data ≠ [] → (∀ c ∈ s.data, isDecDigit c = true) →
      handleSubmitPayloadValue s
        = some ⟨'0' :: 'x' ::
            natToBase 16 (roundToDouble (digitsVal 10 s.data))⟩ ∧
      (digitsVal 16 (natToBase 16 (roundToDouble (digitsVal 10 s.data)))
          = digitsVal 10 s.data
        ↔ roundToDouble (digitsVal 10 s.data) = digitsVal 10 s.data)) ∧
    (∀ n : Nat, n < 2 ^ 53 → roundToDouble n = n) ∧
    (handleSubmitPayloadValue "9007199254740993" = some "0x20000000000000" ∧
     (9007199254740993 : Nat) = 2 ^ 53 + 1 ∧
     digitsVal 16 "20000000000000".data = 2 ^ 53 ∧
     digitsVal 16 "20000000000000".data ≠ digitsVal 10 "9007199254740993".data) := by
  refine ⟨?_, fun n h => roundToDouble_small (Nat.le_of_lt h), ?_⟩
  · intro s hne hd
    constructor
    · unfold handleSubmitPayloadValue
      rw [if_neg (by simpa [List.isEmpty_iff] using hne)]
      rw [jsParseIntAuto_digits s.data hne hd]
      rfl
    · rw [digitsVal_natToBase 16 (by omega) (by omega)]
  · refine ⟨?_, by decide, by decide, by decide⟩
    decide

/-- C9 witness: the digit input `"123"` is submitted as `"0x7b"`. -/
theorem handleSubmit_double_spec_witness :
    handleSubmitPayloadValue "123" = some "0x7b" := by
  have h := handleSubmit_double_spec.1 "123" (by decide) (by decide)
  rw [h.1]
  rfl

/-- C3 counterexample: `"01"` is a non-negative decimal amount string with at
most 18 fractional digits, but its round trip renders as `"1.0"`, which after
trailing-zero normalization is `"1"` and differs from `"01"` — the round trip
canonicalizes the leading zero away, beyond trailing-zero trimming. -/
theorem parseEther_roundTrip_cex :
    validEthAmount "01".data = true ∧
    (parseEther "01").map formatEther = some "1.0" ∧
    normalizeDec "1.0".data ≠ normalizeDec "01".data := by
  refine ⟨by decide, ?_, by decide⟩
  decide

/-- C3 (amended): for every decimal amount string the 18-decimal conversion
accepts whose integer part is nonempty and free of leading zeros,
`formatEther (parseEther x)` reproduces `x` up to trailing-zero
normalization; and entering `"1.0"` yields exactly the base-unit value
10^18. -/
theorem parseEther_formatEther_roundTrip (s : String)
    (hv : validEthAmount s.data = true) (hc : canonicalIntPart s.data = true) :
    (∃ v, parseEther s = some v ∧
      normalizeDec (formatEther v).data = normalizeDec s.data) ∧
    parseEther "1.0" = some 1000000000000000000 := by
  refine ⟨?_, by decide⟩
  obtain ⟨v, h1, h2⟩ := parseEtherL_roundTrip s.data hv hc
  exact ⟨v, h1, h2⟩

/-- C3 witness: the round trip at the amount `"1.5"`. -/
theorem parseEther_formatEther_roundTrip_witness :
    (∃ v, parseEther "1.5" = some v ∧
      normalizeDec (formatEther v).data = normalizeDec "1.5".data) ∧
    parseEther "1.0" = some 1000000000000000000 :=
  parseEther_formatEther_roundTrip "1.5" (by decide) (by decide)
